import Mathlib

/-
Shallow embedding of the Intel(R) Processor Trace packet decoder described
by src/libipt/internal/include/pt_decoder.h and the accompanying design
specification.  The repository excerpt contains only the public header
(declarations of struct pt_decoder and of the query functions); every
operation below is therefore modelled from the specification text, faithful
to its words, with the header's structure pt_decoder mirrored field by
field.
-/

/-- Error codes of the decoder, mirroring the negative pt_error_code values
named in the header comments: pte_invalid, pte_nosync, pte_eos, pte_bad_opc,
pte_bad_packet, pte_bad_query.  The internal code marks fuel exhaustion of
the embedding's scan loops and plays the role of pte_internal. -/
inductive PtError where
  | invalid
  | nosync
  | eos
  | badOpcode
  | badPacket
  | badQuery
  | internal
  deriving DecidableEq

/-- Modelled from the spec: the decoder configuration (struct pt_config is
not under src/).  The trace buffer is the immutable byte range [begin, end)
supplied by the caller; we model it as a list of bytes, so begin is offset 0
and end is the list length, and the cursor pos is a byte offset. -/
structure pt_config where
  buf : List Nat
  deriving DecidableEq

/-- Modelled from the spec: Last-IP tracker state (struct pt_last_ip is not
under src/).  It holds the last reconstructed full address plus the flag
telling whether the most recent payload was suppressed, in which case
queries report a logical no-address as 0 without the stored reference value
having been mutated. -/
structure pt_last_ip where
  ip : Nat
  suppressed : Bool
  deriving DecidableEq

/-- Modelled from the spec: Time Tracker state (struct pt_time is not under
src/): current best-estimate timestamp and last-seen core:bus ratio, both
defaulting to zero before any timing packet has been seen. -/
structure pt_time where
  tsc : Nat
  cbr : Nat
  deriving DecidableEq

/-- Modelled from the spec: an event (struct pt_event is not under src/), a
tagged variant; an asynchronous branch event needs an address bound by a
subsequent packet, so its target is an Option that is none while the event
is still incomplete.  A paging event binds to the next branch; an overflow
event is deliverable immediately. -/
inductive pt_event where
  | paging (cr3 : Nat)
  | overflow
  | asyncBranch (tgt : Option Nat)
  deriving DecidableEq

/-- Does this event still need an address bound by a later packet? -/
def eventNeedsIp : pt_event → Bool
  | .asyncBranch none => true
  | _ => false

/-- Does this event bind to (become deliverable at) the next branch packet? -/
def eventBindsBranch : pt_event → Bool
  | .paging _ => true
  | _ => false

/-- An event is resolved iff it no longer waits for a bound address. -/
def eventResolved : pt_event → Bool
  | .asyncBranch none => false
  | _ => true

/-- Bind the completing address into an address-needing event. -/
def eventComplete (a : Nat) : pt_event → pt_event
  | .asyncBranch _ => .asyncBranch (some a)
  | e => e

/-- The decoder state, mirroring struct pt_decoder of the header field by
field: config, pos, sync, the synchronized flag standing for the header's
next decoding-function pointer being valid, last-ip, tnt cache, flags,
time, and the event queue split into the deliverable queue evq and the
pending (incomplete) events, as the spec describes. -/
structure pt_decoder where
  config : pt_config
  pos : Nat
  sync : Nat
  synced : Bool
  ip : pt_last_ip
  tnt : List Bool
  flags : Nat
  time : pt_time
  evq : List pt_event
  pending : List pt_event
  deriving DecidableEq

/-- Modelled from the spec: pt_decoder_init (implementation not under src/)
binds a fresh decoder to an immutable configuration; the decoder still
needs to be synchronized before it can be used. -/
def pt_decoder_init (cfg : pt_config) : pt_decoder :=
  { config := cfg
    pos := 0
    sync := 0
    synced := false
    ip := { ip := 0, suppressed := true }
    tnt := []
    flags := 0
    time := { tsc := 0, cbr := 0 }
    evq := []
    pending := [] }

/-- Modelled from the spec: pt_reset (implementation not under src/) resets
the cache fields of the decoder state (last-ip, tnt, time, events, flags)
and does not modify buffer-related fields; the decoder must be
re-synchronized before further queries. -/
def pt_reset (d : pt_decoder) : pt_decoder :=
  { d with
    synced := false
    ip := { ip := 0, suppressed := true }
    tnt := []
    flags := 0
    time := { tsc := 0, cbr := 0 }
    evq := []
    pending := [] }

/-- Modelled from the spec: synchronizing the decoder at a sync offset (the
pt_sync machinery is not under src/).  Synchronization resets all cached or
derived state and places both the cursor and the sync marker at the given
offset, after which queries are permitted. -/
def ptSync (d : pt_decoder) (off : Nat) : pt_decoder :=
  { pt_reset d with pos := off, sync := off, synced := true }

/-- A compressed IP payload: explicitly suppressed, an update of the low 16
bits relative to the last reconstructed address, or a full replacement. -/
inductive IpPayload where
  | suppressed
  | update16 (v : Nat)
  | full (v : Nat)
  deriving DecidableEq

/-- Modelled from the spec: the Last-IP update.  A suppressed payload does
not mutate the stored reference value and only marks the address as
logically absent; an update payload reuses the high-order bits of the last
value; a full payload replaces it. -/
def ptLastIpUpdate (l : pt_last_ip) : IpPayload → pt_last_ip
  | .suppressed => { l with suppressed := true }
  | .update16 v => { ip := l.ip / 65536 * 65536 + v % 65536, suppressed := false }
  | .full v => { ip := v, suppressed := false }

/-- The address the Last-IP tracker reports to callers: 0 when the current
payload was suppressed, the reconstructed address otherwise. -/
def lastIpQuery (l : pt_last_ip) : Nat :=
  if l.suppressed then 0 else l.ip

/-- Decode the TNT payload byte into its decision bits, most significant
decision first; the highest set bit of the payload is the stop marker that
delimits valid bits from padding.  Fuel-based structural recursion so that
concrete payloads evaluate definitionally. -/
def tntBitsF : Nat → Nat → List Bool
  | 0, _ => []
  | f + 1, p => if p ≤ 1 then [] else tntBitsF f (p / 2) ++ [decide (p % 2 = 1)]

/-- Decision bits of a TNT payload byte (see tntBitsF). -/
def tntBits (p : Nat) : List Bool :=
  tntBitsF p p

/-- Encode decision bits into a TNT payload byte: a leading stop-marker one
bit followed by the decisions, first decision in the highest position. -/
def tntEncode (l : List Bool) : Nat :=
  l.foldl (fun a b => 2 * a + (if b then 1 else 0)) 1

/-- The packets of the model's opcode table.  Modelled from the spec: the
authoritative opcode table is external to the excerpt, so the table here is
a representative instance of the format the spec describes (short opcodes
with an escape byte, variable-length little-endian payloads): padding, PSB
and its trailing marker, TNT, TIP (unconditional branch), FUP (flow
update, the address-bearing packet that completes pending events),
overflow, an asynchronous-branch event opener, a paging event, a timestamp
packet and a core:bus-ratio packet. -/
inductive Packet where
  | pad
  | psb
  | psbend
  | tnt (bits : List Bool)
  | tip (pl : IpPayload)
  | fup (pl : IpPayload)
  | ovf
  | asyncOpen
  | paging (cr3 : Nat)
  | tsc (v : Nat)
  | cbr (v : Nat)
  deriving DecidableEq

/-- Read one byte of the trace buffer; reading at or past the end of the
buffer is reported as Eos and never attempted as a dereference. -/
def readByte (buf : List Nat) (i : Nat) : Except PtError Nat :=
  match buf[i]? with
  | some b => .ok b
  | none => .error .eos

/-- Read an n-byte little-endian value starting at offset i. -/
def readLE (buf : List Nat) : Nat → Nat → Except PtError Nat
  | _, 0 => .ok 0
  | i, n + 1 =>
    match readByte buf i with
    | .error e => .error e
    | .ok b =>
      match readLE buf (i + 1) n with
      | .error e => .error e
      | .ok v => .ok (b + 256 * v)

/-- Decode a compressed IP payload at offset i: a mode byte selecting
suppression (0), a 2-byte low-order update (1) or a full 8-byte address
(2); any other mode is a malformed payload. -/
def decodeIp (buf : List Nat) (i : Nat) : Except PtError (IpPayload × Nat) :=
  match readByte buf i with
  | .error e => .error e
  | .ok m =>
    if m = 0 then .ok (.suppressed, i + 1)
    else if m = 1 then
      match readLE buf (i + 1) 2 with
      | .error e => .error e
      | .ok v => .ok (.update16 v, i + 3)
    else if m = 2 then
      match readLE buf (i + 1) 8 with
      | .error e => .error e
      | .ok v => .ok (.full v, i + 9)
    else .error .badPacket

/-- Decode the packet at offset pos, returning the packet together with the
offset one past it.  Unknown opcodes yield BadOpcode, recognized opcodes
with malformed payloads yield BadPacket, and running past the end of the
buffer while more packet bytes are required yields Eos. -/
def decodePacket (buf : List Nat) (pos : Nat) : Except PtError (Packet × Nat) :=
  match readByte buf pos with
  | .error e => .error e
  | .ok op =>
    if op = 0x00 then .ok (.pad, pos + 1)
    else if op = 0x02 then
      match readByte buf (pos + 1) with
      | .error e => .error e
      | .ok ext =>
        if ext = 0x82 then .ok (.psb, pos + 2)
        else if ext = 0x23 then .ok (.psbend, pos + 2)
        else .error .badOpcode
    else if op = 0x10 then
      match readByte buf (pos + 1) with
      | .error e => .error e
      | .ok p =>
        if p = 0 ∨ 255 < p then .error .badPacket
        else .ok (.tnt (tntBits p), pos + 2)
    else if op = 0x20 then
      match decodeIp buf (pos + 1) with
      | .error e => .error e
      | .ok (pl, i) => .ok (.tip pl, i)
    else if op = 0x21 then
      match decodeIp buf (pos + 1) with
      | .error e => .error e
      | .ok (pl, i) => .ok (.fup pl, i)
    else if op = 0x30 then .ok (.ovf, pos + 1)
    else if op = 0x31 then .ok (.asyncOpen, pos + 1)
    else if op = 0x32 then
      match readLE buf (pos + 1) 8 with
      | .error e => .error e
      | .ok v => .ok (.paging v, pos + 9)
    else if op = 0x40 then
      match readLE buf (pos + 1) 8 with
      | .error e => .error e
      | .ok v => .ok (.tsc v, pos + 9)
    else if op = 0x41 then
      match readByte buf (pos + 1) with
      | .error e => .error e
      | .ok v => .ok (.cbr v, pos + 2)
    else .error .badOpcode

/-- A packet found by a scan that is query-relevant: TNT data, an
unconditional branch, an address-bearing FUP that completes pending
address-needing events, or an immediately deliverable overflow event. -/
inductive ScanFound where
  | tntData (bits : List Bool)
  | branch (pl : IpPayload)
  | fupEvent (pl : IpPayload)
  | ovfEvent
  deriving DecidableEq

/-- Result of dispatching one packet: either the packet was skippable and
its side effects (cursor advance, sync update, timing update, event
opening, plain flow update) have been applied, or a query-relevant packet
was found, reported together with the offset one past it and with the
decoder state untouched. -/
inductive ScanStepRes where
  | skipped (d : pt_decoder)
  | found (f : ScanFound) (next : Nat)
  deriving DecidableEq

/-- Modelled from the spec: one step of the Packet Dispatch Engine.
Padding and the PSB trailing marker are skipped with no state change
beyond the cursor advance; a PSB updates sync to its own position and
clears the cross-segment derived state (TNT queue and pending IP); timing
packets update the Time Tracker; event-opening packets append an
incomplete event to the pending list; a FUP that completes no pending
event is a plain flow update of the Last-IP tracker.  TNT, TIP, a
completing FUP and an overflow are query-relevant and are not consumed by
this step. -/
def scanStep (d : pt_decoder) : Except PtError ScanStepRes :=
  match decodePacket d.config.buf d.pos with
  | .error e => .error e
  | .ok (p, i) =>
    match p with
    | .pad => .ok (.skipped { d with pos := i })
    | .psbend => .ok (.skipped { d with pos := i })
    | .psb =>
      .ok (.skipped { d with pos := i, sync := d.pos, tnt := [],
                             ip := { ip := 0, suppressed := true } })
    | .tsc v => .ok (.skipped { d with pos := i, time := { d.time with tsc := v } })
    | .cbr v => .ok (.skipped { d with pos := i, time := { d.time with cbr := v } })
    | .asyncOpen =>
      .ok (.skipped { d with pos := i, pending := d.pending ++ [.asyncBranch none] })
    | .paging v =>
      .ok (.skipped { d with pos := i, pending := d.pending ++ [.paging v] })
    | .fup pl =>
      if d.pending.any eventNeedsIp then .ok (.found (.fupEvent pl) i)
      else .ok (.skipped { d with pos := i, ip := ptLastIpUpdate d.ip pl })
    | .tnt bits => .ok (.found (.tntData bits) i)
    | .tip pl => .ok (.found (.branch pl) i)
    | .ovf => .ok (.found .ovfEvent i)

/-- Consume a TIP packet: update the Last-IP tracker, move the pending
events that bind to the next branch to the deliverable queue in arrival
order, and advance the cursor past the packet. -/
def consumeTip (d : pt_decoder) (pl : IpPayload) (i : Nat) : pt_decoder :=
  { d with pos := i
           ip := ptLastIpUpdate d.ip pl
           evq := d.evq ++ d.pending.filter eventBindsBranch
           pending := d.pending.filter (fun e => ! eventBindsBranch e) }

/-- Consume a FUP packet that completes pending address-needing events:
update the Last-IP tracker, bind the reconstructed address into each
pending address-needing event and append them, in the order their
completing packet found them, to the deliverable queue. -/
def consumeFup (d : pt_decoder) (pl : IpPayload) (i : Nat) : pt_decoder :=
  let l := ptLastIpUpdate d.ip pl
  { d with pos := i
           ip := l
           evq := d.evq ++ (d.pending.filter eventNeedsIp).map (eventComplete (lastIpQuery l))
           pending := d.pending.filter (fun e => ! eventNeedsIp e) }

/-- Release the branch-bound pending events to the deliverable queue
without consuming the branch packet itself (the packet will be consumed
after all events have been processed, cf. pdf_consume_packet). -/
def releaseBranchEvents (d : pt_decoder) : pt_decoder :=
  { d with evq := d.evq ++ d.pending.filter eventBindsBranch
           pending := d.pending.filter (fun e => ! eventBindsBranch e) }

/-- The non-negative status bit-vector returned by successful queries:
bit 0 reports a suppressed instruction address, bit 1 a pending event. -/
def ptStatus (d : pt_decoder) : Nat :=
  (if d.ip.suppressed then 1 else 0) + (if d.evq.isEmpty then 0 else 2)

/-- Read ahead from a sync point until the first query-relevant packet,
stopping before it; reports the current reconstructed instruction address
(0 when suppressed).  Fuel-based loop; on failure the state at the failure
point is reported alongside the error. -/
def scanStart : Nat → pt_decoder → Except (PtError × pt_decoder) (Nat × pt_decoder)
  | 0, d => .error (.internal, d)
  | f + 1, d =>
    match scanStep d with
    | .error e => .error (e, d)
    | .ok (.skipped d') => scanStart f d'
    | .ok (.found _ _) => .ok (lastIpQuery d.ip, d)

/-- Advance to and consume the next unconditional-branch packet, returning
its reconstructed target address; any other query-relevant packet aborts
the scan with BadQuery. -/
def scanUncond : Nat → pt_decoder → Except (PtError × pt_decoder) (Nat × pt_decoder)
  | 0, d => .error (.internal, d)
  | f + 1, d =>
    match scanStep d with
    | .error e => .error (e, d)
    | .ok (.skipped d') => scanUncond f d'
    | .ok (.found (.branch pl) i) =>
      let d' := consumeTip d pl i
      .ok (lastIpQuery d'.ip, d')
    | .ok (.found _ _) => .error (.badQuery, d)

/-- Pop one taken/not-taken decision, refilling the TNT cache from the
next TNT packet when it is empty; any other query-relevant packet aborts
the scan with BadQuery. -/
def scanCond : Nat → pt_decoder → Except (PtError × pt_decoder) (Nat × pt_decoder)
  | 0, d => .error (.internal, d)
  | f + 1, d =>
    match d.tnt with
    | b :: rest => .ok ((if b then 1 else 0), { d with tnt := rest })
    | [] =>
      match scanStep d with
      | .error e => .error (e, d)
      | .ok (.skipped d') => scanCond f d'
      | .ok (.found (.tntData bits) i) => scanCond f { d with tnt := bits, pos := i }
      | .ok (.found _ _) => .error (.badQuery, d)

/-- Deliver the front of the deliverable event queue, decoding forward
until an event becomes deliverable when the queue is empty; a TNT or a
branch packet with no branch-bound pending event aborts with BadQuery. -/
def scanEvent : Nat → pt_decoder → Except (PtError × pt_decoder) (pt_event × pt_decoder)
  | 0, d => .error (.internal, d)
  | f + 1, d =>
    match d.evq with
    | e :: rest => .ok (e, { d with evq := rest })
    | [] =>
      match scanStep d with
      | .error e => .error (e, d)
      | .ok (.skipped d') => scanEvent f d'
      | .ok (.found (.fupEvent pl) i) => scanEvent f (consumeFup d pl i)
      | .ok (.found .ovfEvent i) =>
        scanEvent f { d with pos := i, evq := d.evq ++ [.overflow] }
      | .ok (.found (.branch _) _) =>
        if d.pending.any eventBindsBranch then scanEvent f (releaseBranchEvents d)
        else .error (.badQuery, d)
      | .ok (.found (.tntData _) _) => .error (.badQuery, d)

/-- The scan fuel: one unit per buffer byte plus slack for the steps that
do not advance the cursor (a cache pop, an event release, a delivery). -/
def ptFuel (d : pt_decoder) : Nat :=
  d.config.buf.length + 4

/-- Modelled from the spec: pt_query_start (implementation not under
src/).  Requires a synchronized decoder, reads ahead until the first
query-relevant packet and returns the status bit-vector together with the
address of the first instruction, or 0 when it is suppressed.  A failure
with BadQuery leaves the decoder state unchanged; other failures commit
the read-ahead performed so far. -/
def pt_query_start (d : pt_decoder) : (Except PtError (Nat × Nat)) × pt_decoder :=
  if d.synced then
    match scanStart (ptFuel d) d with
    | .ok (a, d') => (.ok (ptStatus d', a), d')
    | .error (e, d') => (.error e, if e = .badQuery then d else d')
  else (.error .nosync, d)

/-- Modelled from the spec: pt_query_uncond_branch (implementation not
under src/).  Requires a synchronized decoder; consumes the next
unconditional branch and returns its destination address, failing with
BadQuery — with the decoder state unchanged — when the next relevant
packet is not an unconditional branch. -/
def pt_query_uncond_branch (d : pt_decoder) : (Except PtError (Nat × Nat)) × pt_decoder :=
  if d.synced then
    match scanUncond (ptFuel d) d with
    | .ok (a, d') => (.ok (ptStatus d', a), d')
    | .error (e, d') => (.error e, if e = .badQuery then d else d')
  else (.error .nosync, d)

/-- Modelled from the spec: pt_query_cond_branch (implementation not under
src/).  Requires a synchronized decoder; pops one decision bit from the
TNT cache, refilling it from the stream when empty, failing with BadQuery
— with the decoder state unchanged — when the next relevant packet is not
conditional-branch data. -/
def pt_query_cond_branch (d : pt_decoder) : (Except PtError (Nat × Nat)) × pt_decoder :=
  if d.synced then
    match scanCond (ptFuel d) d with
    | .ok (b, d') => (.ok (ptStatus d', b), d')
    | .error (e, d') => (.error e, if e = .badQuery then d else d')
  else (.error .nosync, d)

/-- Modelled from the spec: pt_query_event (implementation not under
src/).  Requires a synchronized decoder; delivers and removes the front of
the deliverable event queue, decoding forward when it is empty, failing
with BadQuery — with the decoder state unchanged — when no event is
deliverable at the next relevant packet. -/
def pt_query_event (d : pt_decoder) : (Except PtError (Nat × pt_event)) × pt_decoder :=
  if d.synced then
    match scanEvent (ptFuel d) d with
    | .ok (e, d') => (.ok (ptStatus d', e), d')
    | .error (e, d') => (.error e, if e = .badQuery then d else d')
  else (.error .nosync, d)

/-- Modelled from the spec: pt_query_time (implementation not under src/),
a pure read of the Time Tracker's current best-estimate timestamp; succeeds
for every non-null decoder and fails with Invalid only on a null one. -/
def pt_query_time (od : Option pt_decoder) : Except PtError Nat :=
  match od with
  | none => .error .invalid
  | some d => .ok d.time.tsc

/-- Modelled from the spec: the core:bus-ratio read (implementation not
under src/), a pure read of the last-seen ratio, zero before any ratio
packet has been seen; fails with Invalid only on a null decoder. -/
def pt_query_core_bus_ratio (od : Option pt_decoder) : Except PtError Nat :=
  match od with
  | none => .error .invalid
  | some d => .ok d.time.cbr

/-- Modelled from the spec: pt_get_decoder_pos (implementation not under
src/), reporting the cursor's offset from the buffer base for every
non-null decoder regardless of synchronization state. -/
def pt_get_decoder_pos (od : Option pt_decoder) : Except PtError Nat :=
  match od with
  | none => .error .invalid
  | some d => .ok d.pos

/-- Modelled from the spec: pt_get_decoder_sync (implementation not under
src/), reporting the offset of the last synchronization point for every
non-null decoder regardless of synchronization state. -/
def pt_get_decoder_sync (od : Option pt_decoder) : Except PtError Nat :=
  match od with
  | none => .error .invalid
  | some d => .ok d.sync

/-- Modelled from the spec: fully processing the single packet currently
selected at the cursor, applying its effects (used to state what the
pt_will_event lookahead predicts). -/
def consumeNext (d : pt_decoder) : Except PtError pt_decoder :=
  match scanStep d with
  | .error e => .error e
  | .ok (.skipped d') => .ok d'
  | .ok (.found (.tntData bits) i) => .ok { d with tnt := d.tnt ++ bits, pos := i }
  | .ok (.found (.branch pl) i) => .ok (consumeTip d pl i)
  | .ok (.found (.fupEvent pl) i) => .ok (consumeFup d pl i)
  | .ok (.found .ovfEvent i) => .ok { d with pos := i, evq := d.evq ++ [.overflow] }

/-- Modelled from the spec: pt_will_event (implementation not under src/),
a pure lookahead reporting 1 when decoding the packet currently selected
at the cursor will produce a deliverable event and 0 otherwise, without
mutating any decoder state; Invalid only on a null decoder. -/
def pt_will_event (od : Option pt_decoder) : Except PtError Nat :=
  match od with
  | none => .error .invalid
  | some d =>
    .ok (match decodePacket d.config.buf d.pos with
      | .ok (.ovf, _) => 1
      | .ok (.fup _, _) => if d.pending.any eventNeedsIp then 1 else 0
      | .ok (.tip _, _) => if d.pending.any eventBindsBranch then 1 else 0
      | _ => 0)

/-- The operations of the pull-based query façade, as a replayable call. -/
inductive Query where
  | qstart
  | quncond
  | qcond
  | qevent
  | qtime
  | qcbr
  deriving DecidableEq

/-- The value a query call reports to the caller. -/
inductive QVal where
  | addr (a : Nat)
  | bit (b : Nat)
  | ev (e : pt_event)
  | tval (v : Nat)
  | cval (v : Nat)
  deriving DecidableEq

/-- Run one query call against the decoder, pairing each successful call
with its status bit-vector (the time and ratio reads report a plain 0). -/
def runQuery (d : pt_decoder) : Query → (Except PtError (Nat × QVal)) × pt_decoder
  | .qstart =>
    match pt_query_start d with
    | (.ok (s, a), d') => (.ok (s, .addr a), d')
    | (.error e, d') => (.error e, d')
  | .quncond =>
    match pt_query_uncond_branch d with
    | (.ok (s, a), d') => (.ok (s, .addr a), d')
    | (.error e, d') => (.error e, d')
  | .qcond =>
    match pt_query_cond_branch d with
    | (.ok (s, b), d') => (.ok (s, .bit b), d')
    | (.error e, d') => (.error e, d')
  | .qevent =>
    match pt_query_event d with
    | (.ok (s, e), d') => (.ok (s, .ev e), d')
    | (.error e, d') => (.error e, d')
  | .qtime =>
    match pt_query_time (some d) with
    | .ok v => (.ok (0, .tval v), d)
    | .error e => (.error e, d)
  | .qcbr =>
    match pt_query_core_bus_ratio (some d) with
    | .ok v => (.ok (0, .cval v), d)
    | .error e => (.error e, d)

/-- Replay a sequence of query calls, collecting every result. -/
def runQueries (d : pt_decoder) : List Query → List (Except PtError (Nat × QVal)) × pt_decoder
  | [] => ([], d)
  | q :: qs =>
    let (r, d') := runQuery d q
    let (rs, d'') := runQueries d' qs
    (r :: rs, d'')

/-- Example: a trace of one padding packet followed by a TIP packet with a
full 8-byte address payload of 7, synchronized at offset 0. -/
def exC1 : pt_decoder :=
  ptSync (pt_decoder_init ⟨[0x00, 0x20, 2, 7, 0, 0, 0, 0, 0, 0, 0]⟩) 0

/-- Example: a trace whose next relevant packet is a TNT packet. -/
def exC2 : pt_decoder :=
  ptSync (pt_decoder_init ⟨[0x10, 3]⟩) 0

/-- Example: a trace of a single TNT packet whose payload 13 encodes the
decision bits taken, not-taken, taken. -/
def exC3 : pt_decoder :=
  ptSync (pt_decoder_init ⟨[0x10, 13]⟩) 0

/-- Example: a paging event (opens first, binds to the next branch), an
asynchronous-branch event (opens second, needs an address), the FUP that
completes the asynchronous branch with address 7, and the TIP at which the
paging event becomes deliverable. -/
def exC4 : pt_decoder :=
  ptSync (pt_decoder_init
    ⟨[0x32, 5, 0, 0, 0, 0, 0, 0, 0,
      0x31,
      0x21, 2, 7, 0, 0, 0, 0, 0, 0, 0,
      0x20, 0]⟩) 0

/-- Example configuration shared by two decoders in different states. -/
def exC5cfg : pt_config :=
  ⟨[0x20, 2, 7, 0, 0, 0, 0, 0, 0, 0]⟩

/-- Example: a freshly initialized decoder on exC5cfg. -/
def exC5a : pt_decoder :=
  pt_decoder_init exC5cfg

/-- Example: a decoder on exC5cfg with stale cursor, TNT, time and event
state left over from earlier decoding. -/
def exC5b : pt_decoder :=
  { pt_decoder_init exC5cfg with
    pos := 5
    tnt := [true]
    time := { tsc := 9, cbr := 3 }
    evq := [.overflow] }

/-- Example: a TNT packet truncated before its payload byte. -/
def exC6 : pt_decoder :=
  ptSync (pt_decoder_init ⟨[0x10]⟩) 0

/-- Example: a TIP packet with a suppressed address payload. -/
def exC7 : pt_decoder :=
  ptSync (pt_decoder_init ⟨[0x20, 0]⟩) 0

/-- Property of a scan-loop result: the deliverable event queue of the
resulting decoder state holds only resolved events (events whose required
address, if any, has already been bound). -/
def scanAllResolved {α : Type} :
    Except (PtError × pt_decoder) (α × pt_decoder) → Prop
  | .ok (_, d') => d'.evq.all eventResolved = true
  | .error (_, d') => d'.evq.all eventResolved = true

/-- Invariant carried by every scan-loop result: the final decoder state —
on success as well as at any failure point — keeps the configuration and
stays within the buffer bounds. -/
def scanInv {α : Type} (cfg : pt_config) :
    Except (PtError × pt_decoder) (α × pt_decoder) → Prop
  | .ok (_, d') => d'.config = cfg ∧ d'.pos ≤ cfg.buf.length
  | .error (_, d') => d'.config = cfg ∧ d'.pos ≤ cfg.buf.length

/-- Reading a byte succeeds only strictly inside the buffer. -/
theorem readByte_ok_lt {buf : List Nat} {i b : Nat} (h : readByte buf i = .ok b) :
    i < buf.length := by
  unfold readByte at h
  by_contra hge
  rw [List.getElem?_eq_none (by omega)] at h
  cases h

/-- Reading at or past the end of the buffer is reported as Eos. -/
theorem readByte_eos {buf : List Nat} {i : Nat} (h : buf.length ≤ i) :
    readByte buf i = .error .eos := by
  unfold readByte
  rw [List.getElem?_eq_none h]

/-- A successful multi-byte read stays within the buffer. -/
theorem readLE_ok_le {buf : List Nat} :
    ∀ (n i v : Nat), readLE buf i n = .ok v → n = 0 ∨ i + n ≤ buf.length := by
  intro n
  induction n with
  | zero => intro i v _; exact Or.inl rfl
  | succ n ih =>
    intro i v h
    simp only [readLE] at h
    cases hb : readByte buf i with
    | error e => rw [hb] at h; cases h
    | ok b =>
      rw [hb] at h
      have h1 := readByte_ok_lt hb
      cases h2 : readLE buf (i + 1) n with
      | error e => rw [h2] at h; cases h
      | ok v' =>
        rcases ih (i + 1) v' h2 with h3 | h3
        · right; omega
        · right; omega

/-- A successfully decoded IP payload ends within the buffer. -/
theorem decodeIp_ok_le {buf : List Nat} {i : Nat} {pl : IpPayload} {j : Nat}
    (h : decodeIp buf i = .ok (pl, j)) : j ≤ buf.length := by
  unfold decodeIp at h
  cases hb : readByte buf i with
  | error e => rw [hb] at h; cases h
  | ok m =>
    rw [hb] at h
    dsimp only at h
    have h1 := readByte_ok_lt hb
    by_cases c0 : m = 0
    · rw [if_pos c0] at h; cases h; omega
    rw [if_neg c0] at h
    by_cases c1 : m = 1
    · rw [if_pos c1] at h
      cases h2 : readLE buf (i + 1) 2 with
      | error e => rw [h2] at h; cases h
      | ok v =>
        rw [h2] at h; cases h
        rcases readLE_ok_le 2 (i + 1) v h2 with h3 | h3 <;> omega
    rw [if_neg c1] at h
    by_cases c2 : m = 2
    · rw [if_pos c2] at h
      cases h2 : readLE buf (i + 1) 8 with
      | error e => rw [h2] at h; cases h
      | ok v =>
        rw [h2] at h; cases h
        rcases readLE_ok_le 8 (i + 1) v h2 with h3 | h3 <;> omega
    rw [if_neg c2] at h
    cases h

/-- A successfully decoded packet ends within the buffer. -/
theorem decodePacket_ok_le {buf : List Nat} {pos : Nat} {p : Packet} {i : Nat}
    (h : decodePacket buf pos = .ok (p, i)) : i ≤ buf.length := by
  unfold decodePacket at h
  cases hb : readByte buf pos with
  | error e => rw [hb] at h; cases h
  | ok op =>
    rw [hb] at h
    dsimp only at h
    have h1 := readByte_ok_lt hb
    by_cases c0 : op = 0x00
    · rw [if_pos c0] at h; cases h; omega
    rw [if_neg c0] at h
    by_cases c2 : op = 0x02
    · rw [if_pos c2] at h
      cases h2 : readByte buf (pos + 1) with
      | error e => rw [h2] at h; cases h
      | ok ext =>
        rw [h2] at h
        dsimp only at h
        have h3 := readByte_ok_lt h2
        by_cases e1 : ext = 0x82
        · rw [if_pos e1] at h; cases h; omega
        rw [if_neg e1] at h
        by_cases e2 : ext = 0x23
        · rw [if_pos e2] at h; cases h; omega
        rw [if_neg e2] at h; cases h
    rw [if_neg c2] at h
    by_cases c10 : op = 0x10
    · rw [if_pos c10] at h
      cases h2 : readByte buf (pos + 1) with
      | error e => rw [h2] at h; cases h
      | ok pb =>
        rw [h2] at h
        dsimp only at h
        have h3 := readByte_ok_lt h2
        by_cases e1 : pb = 0 ∨ 255 < pb
        · rw [if_pos e1] at h; cases h
        · rw [if_neg e1] at h; cases h; omega
    rw [if_neg c10] at h
    by_cases c20 : op = 0x20
    · rw [if_pos c20] at h
      cases h2 : decodeIp buf (pos + 1) with
      | error e => rw [h2] at h; cases h
      | ok r =>
        obtain ⟨pl, j⟩ := r
        rw [h2] at h; cases h
        exact decodeIp_ok_le h2
    rw [if_neg c20] at h
    by_cases c21 : op = 0x21
    · rw [if_pos c21] at h
      cases h2 : decodeIp buf (pos + 1) with
      | error e => rw [h2] at h; cases h
      | ok r =>
        obtain ⟨pl, j⟩ := r
        rw [h2] at h; cases h
        exact decodeIp_ok_le h2
    rw [if_neg c21] at h
    by_cases c30 : op = 0x30
    · rw [if_pos c30] at h; cases h; omega
    rw [if_neg c30] at h
    by_cases c31 : op = 0x31
    · rw [if_pos c31] at h; cases h; omega
    rw [if_neg c31] at h
    by_cases c32 : op = 0x32
    · rw [if_pos c32] at h
      cases h2 : readLE buf (pos + 1) 8 with
      | error e => rw [h2] at h; cases h
      | ok v =>
        rw [h2] at h; cases h
        rcases readLE_ok_le 8 (pos + 1) v h2 with h3 | h3 <;> omega
    rw [if_neg c32] at h
    by_cases c40 : op = 0x40
    · rw [if_pos c40] at h
      cases h2 : readLE buf (pos + 1) 8 with
      | error e => rw [h2] at h; cases h
      | ok v =>
        rw [h2] at h; cases h
        rcases readLE_ok_le 8 (pos + 1) v h2 with h3 | h3 <;> omega
    rw [if_neg c40] at h
    by_cases c41 : op = 0x41
    · rw [if_pos c41] at h
      cases h2 : readByte buf (pos + 1) with
      | error e => rw [h2] at h; cases h
      | ok v =>
        rw [h2] at h
        have h3 := readByte_ok_lt h2
        cases h; omega
    rw [if_neg c41] at h
    cases h

/-- Decoding at or past the end of the buffer is reported as Eos. -/
theorem decodePacket_eos {buf : List Nat} {pos : Nat} (h : buf.length ≤ pos) :
    decodePacket buf pos = .error .eos := by
  unfold decodePacket
  rw [readByte_eos h]

/-- A skipped packet leaves the configuration alone and keeps the cursor
within the buffer. -/
theorem scanStep_skipped_inv {d d' : pt_decoder} (h : scanStep d = .ok (.skipped d')) :
    d'.config = d.config ∧ d'.pos ≤ d.config.buf.length := by
  unfold scanStep at h
  cases hp : decodePacket d.config.buf d.pos with
  | error e => rw [hp] at h; cases h
  | ok r =>
    obtain ⟨p, i⟩ := r
    rw [hp] at h
    dsimp only at h
    have hi := decodePacket_ok_le hp
    cases p with
    | pad => cases h; exact ⟨rfl, hi⟩
    | psb => cases h; exact ⟨rfl, hi⟩
    | psbend => cases h; exact ⟨rfl, hi⟩
    | tnt bits => cases h
    | tip pl => cases h
    | fup pl =>
      dsimp only at h
      by_cases hc : d.pending.any eventNeedsIp
      · rw [if_pos hc] at h; cases h
      · rw [if_neg hc] at h; cases h; exact ⟨rfl, hi⟩
    | ovf => cases h
    | asyncOpen => cases h; exact ⟨rfl, hi⟩
    | paging v => cases h; exact ⟨rfl, hi⟩
    | tsc v => cases h; exact ⟨rfl, hi⟩
    | cbr v => cases h; exact ⟨rfl, hi⟩

/-- A found packet's end offset lies within the buffer. -/
theorem scanStep_found_le {d : pt_decoder} {f : ScanFound} {i : Nat}
    (h : scanStep d = .ok (.found f i)) : i ≤ d.config.buf.length := by
  unfold scanStep at h
  cases hp : decodePacket d.config.buf d.pos with
  | error e => rw [hp] at h; cases h
  | ok r =>
    obtain ⟨p, j⟩ := r
    rw [hp] at h
    dsimp only at h
    have hi := decodePacket_ok_le hp
    cases p with
    | pad => cases h
    | psb => cases h
    | psbend => cases h
    | tnt bits => cases h; exact hi
    | tip pl => cases h; exact hi
    | fup pl =>
      dsimp only at h
      by_cases hc : d.pending.any eventNeedsIp
      · rw [if_pos hc] at h; cases h; exact hi
      · rw [if_neg hc] at h; cases h
    | ovf => cases h; exact hi
    | asyncOpen => cases h
    | paging v => cases h
    | tsc v => cases h
    | cbr v => cases h

/-- The start scan preserves the cursor invariant. -/
theorem scanStart_inv :
    ∀ (f : Nat) (d : pt_decoder), d.pos ≤ d.config.buf.length →
      scanInv d.config (scanStart f d) := by
  intro f
  induction f with
  | zero => intro d h; exact ⟨rfl, h⟩
  | succ f ih =>
    intro d h
    simp only [scanStart]
    cases hs : scanStep d with
    | error e => exact ⟨rfl, h⟩
    | ok r =>
      cases r with
      | skipped d' =>
        obtain ⟨hc, hp⟩ := scanStep_skipped_inv hs
        have hrec := ih d' (by rw [hc]; exact hp)
        rwa [hc] at hrec
      | found fnd i => exact ⟨rfl, h⟩

/-- The unconditional-branch scan preserves the cursor invariant. -/
theorem scanUncond_inv :
    ∀ (f : Nat) (d : pt_decoder), d.pos ≤ d.config.buf.length →
      scanInv d.config (scanUncond f d) := by
  intro f
  induction f with
  | zero => intro d h; exact ⟨rfl, h⟩
  | succ f ih =>
    intro d h
    simp only [scanUncond]
    cases hs : scanStep d with
    | error e => exact ⟨rfl, h⟩
    | ok r =>
      cases r with
      | skipped d' =>
        obtain ⟨hc, hp⟩ := scanStep_skipped_inv hs
        have hrec := ih d' (by rw [hc]; exact hp)
        rwa [hc] at hrec
      | found fnd i =>
        cases fnd with
        | branch pl => exact ⟨rfl, scanStep_found_le hs⟩
        | tntData bits => exact ⟨rfl, h⟩
        | fupEvent pl => exact ⟨rfl, h⟩
        | ovfEvent => exact ⟨rfl, h⟩

/-- The conditional-branch scan preserves the cursor invariant. -/
theorem scanCond_inv :
    ∀ (f : Nat) (d : pt_decoder), d.pos ≤ d.config.buf.length →
      scanInv d.config (scanCond f d) := by
  intro f
  induction f with
  | zero => intro d h; exact ⟨rfl, h⟩
  | succ f ih =>
    intro d h
    simp only [scanCond]
    cases ht : d.tnt with
    | cons b rest => exact ⟨rfl, h⟩
    | nil =>
      cases hs : scanStep d with
      | error e => exact ⟨rfl, h⟩
      | ok r =>
        cases r with
        | skipped d' =>
          obtain ⟨hc, hp⟩ := scanStep_skipped_inv hs
          have hrec := ih d' (by rw [hc]; exact hp)
          rwa [hc] at hrec
        | found fnd i =>
          cases fnd with
          | tntData bits =>
            exact ih _ (show i ≤ d.config.buf.length from scanStep_found_le hs)
          | branch pl => exact ⟨rfl, h⟩
          | fupEvent pl => exact ⟨rfl, h⟩
          | ovfEvent => exact ⟨rfl, h⟩

/-- The event scan preserves the cursor invariant. -/
theorem scanEvent_inv :
    ∀ (f : Nat) (d : pt_decoder), d.pos ≤ d.config.buf.length →
      scanInv d.config (scanEvent f d) := by
  intro f
  induction f with
  | zero => intro d h; exact ⟨rfl, h⟩
  | succ f ih =>
    intro d h
    simp only [scanEvent]
    cases he : d.evq with
    | cons e rest => exact ⟨rfl, h⟩
    | nil =>
      cases hs : scanStep d with
      | error e => exact ⟨rfl, h⟩
      | ok r =>
        cases r with
        | skipped d' =>
          obtain ⟨hc, hp⟩ := scanStep_skipped_inv hs
          have hrec := ih d' (by rw [hc]; exact hp)
          rwa [hc] at hrec
        | found fnd i =>
          cases fnd with
          | fupEvent pl =>
            exact ih _ (show i ≤ d.config.buf.length from scanStep_found_le hs)
          | ovfEvent =>
            exact ih _ (show i ≤ d.config.buf.length from scanStep_found_le hs)
          | branch pl =>
            by_cases hb : d.pending.any eventBindsBranch
            · rw [if_pos hb]
              exact ih _ h
            · rw [if_neg hb]
              exact ⟨rfl, h⟩
          | tntData bits => exact ⟨rfl, h⟩

/-- One query call preserves the configuration and the cursor invariant. -/
theorem runQuery_inv (q : Query) (d : pt_decoder) (h : d.pos ≤ d.config.buf.length) :
    (runQuery d q).2.config = d.config ∧ (runQuery d q).2.pos ≤ d.config.buf.length := by
  cases q with
  | qstart =>
    have hinv := scanStart_inv (ptFuel d) d h
    simp only [runQuery, pt_query_start]
    cases hs : d.synced with
    | false =>
      rw [if_neg (show ¬ false = true by simp)]
      exact ⟨rfl, h⟩
    | true =>
      rw [if_pos rfl]
      cases hr : scanStart (ptFuel d) d with
      | ok p =>
        obtain ⟨a, d'⟩ := p
        rw [hr] at hinv
        exact hinv
      | error p =>
        obtain ⟨e, d'⟩ := p
        rw [hr] at hinv
        dsimp only
        by_cases he : e = .badQuery
        · rw [if_pos he]; exact ⟨rfl, h⟩
        · rw [if_neg he]; exact hinv
  | quncond =>
    have hinv := scanUncond_inv (ptFuel d) d h
    simp only [runQuery, pt_query_uncond_branch]
    cases hs : d.synced with
    | false =>
      rw [if_neg (show ¬ false = true by simp)]
      exact ⟨rfl, h⟩
    | true =>
      rw [if_pos rfl]
      cases hr : scanUncond (ptFuel d) d with
      | ok p =>
        obtain ⟨a, d'⟩ := p
        rw [hr] at hinv
        exact hinv
      | error p =>
        obtain ⟨e, d'⟩ := p
        rw [hr] at hinv
        dsimp only
        by_cases he : e = .badQuery
        · rw [if_pos he]; exact ⟨rfl, h⟩
        · rw [if_neg he]; exact hinv
  | qcond =>
    have hinv := scanCond_inv (ptFuel d) d h
    simp only [runQuery, pt_query_cond_branch]
    cases hs : d.synced with
    | false =>
      rw [if_neg (show ¬ false = true by simp)]
      exact ⟨rfl, h⟩
    | true =>
      rw [if_pos rfl]
      cases hr : scanCond (ptFuel d) d with
      | ok p =>
        obtain ⟨a, d'⟩ := p
        rw [hr] at hinv
        exact hinv
      | error p =>
        obtain ⟨e, d'⟩ := p
        rw [hr] at hinv
        dsimp only
        by_cases he : e = .badQuery
        · rw [if_pos he]; exact ⟨rfl, h⟩
        · rw [if_neg he]; exact hinv
  | qevent =>
    have hinv := scanEvent_inv (ptFuel d) d h
    simp only [runQuery, pt_query_event]
    cases hs : d.synced with
    | false =>
      rw [if_neg (show ¬ false = true by simp)]
      exact ⟨rfl, h⟩
    | true =>
      rw [if_pos rfl]
      cases hr : scanEvent (ptFuel d) d with
      | ok p =>
        obtain ⟨a, d'⟩ := p
        rw [hr] at hinv
        exact hinv
      | error p =>
        obtain ⟨e, d'⟩ := p
        rw [hr] at hinv
        dsimp only
        by_cases he : e = .badQuery
        · rw [if_pos he]; exact ⟨rfl, h⟩
        · rw [if_neg he]; exact hinv
  | qtime => exact ⟨rfl, h⟩
  | qcbr => exact ⟨rfl, h⟩

/-- Replaying any query sequence preserves the configuration and the
cursor invariant. -/
theorem runQueries_inv :
    ∀ (qs : List Query) (d : pt_decoder), d.pos ≤ d.config.buf.length →
      (runQueries d qs).2.config = d.config ∧
      (runQueries d qs).2.pos ≤ d.config.buf.length := by
  intro qs
  induction qs with
  | nil => intro d h; exact ⟨rfl, h⟩
  | cons q qs ih =>
    intro d h
    obtain ⟨hc, hp⟩ := runQuery_inv q d h
    have hrec := ih (runQuery d q).2 (by rw [hc]; exact hp)
    rw [hc] at hrec
    simp only [runQueries]
    rcases hq : runQuery d q with ⟨r, d1⟩
    rw [hq] at hrec
    rcases hr2 : runQueries d1 qs with ⟨rs, d2⟩
    rw [hr2] at hrec
    exact hrec

/-- C1: for every decoder on a valid buffer the cursor invariant
begin ≤ pos ≤ end holds at all times — replaying any sequence of query
calls from a state whose cursor is within bounds leaves the cursor within
bounds — and any attempt to decode at or past the end of the buffer is
reported as the Eos error code. -/
theorem pt_cursor_invariant (d : pt_decoder) (qs : List Query)
    (h : d.pos ≤ d.config.buf.length) :
    (runQueries d qs).2.pos ≤ (runQueries d qs).2.config.buf.length ∧
    ∀ i, d.config.buf.length ≤ i → decodePacket d.config.buf i = .error .eos := by
  obtain ⟨hc, hp⟩ := runQueries_inv qs d h
  exact ⟨by rw [hc]; exact hp, fun i hi => decodePacket_eos hi⟩

/-- C1 witness: the cursor invariant evaluated on a concrete trace and a
concrete query sequence. -/
theorem pt_cursor_invariant_witness :
    exC1.pos ≤ exC1.config.buf.length ∧
    (runQueries exC1 [.qstart, .quncond, .qcond, .qevent, .qtime]).2.pos ≤
      (runQueries exC1 [.qstart, .quncond, .qcond, .qevent, .qtime]).2.config.buf.length :=
  ⟨by decide,
   (pt_cursor_invariant exC1 [.qstart, .quncond, .qcond, .qevent, .qtime] (by decide)).1⟩

/-- C2: a query that fails with BadQuery leaves the decoder state — in
particular the cursor — unchanged, for each of the four advancing query
operations, so the caller may retry with a different query. -/
theorem pt_badquery_frame (d : pt_decoder) :
    ((pt_query_start d).1 = .error .badQuery → (pt_query_start d).2 = d) ∧
    ((pt_query_uncond_branch d).1 = .error .badQuery → (pt_query_uncond_branch d).2 = d) ∧
    ((pt_query_cond_branch d).1 = .error .badQuery → (pt_query_cond_branch d).2 = d) ∧
    ((pt_query_event d).1 = .error .badQuery → (pt_query_event d).2 = d) := by
  refine ⟨?_, ?_, ?_, ?_⟩
  · intro hbq
    simp only [pt_query_start] at hbq ⊢
    by_cases hs : d.synced = true
    · rw [if_pos hs] at hbq ⊢
      cases hr : scanStart (ptFuel d) d with
      | ok p => obtain ⟨a, d'⟩ := p; rw [hr] at hbq; simp at hbq
      | error p =>
        obtain ⟨e, d'⟩ := p
        rw [hr] at hbq
        dsimp only at hbq ⊢
        cases hbq
        rw [if_pos rfl]
    · rw [if_neg hs]
  · intro hbq
    simp only [pt_query_uncond_branch] at hbq ⊢
    by_cases hs : d.synced = true
    · rw [if_pos hs] at hbq ⊢
      cases hr : scanUncond (ptFuel d) d with
      | ok p => obtain ⟨a, d'⟩ := p; rw [hr] at hbq; simp at hbq
      | error p =>
        obtain ⟨e, d'⟩ := p
        rw [hr] at hbq
        dsimp only at hbq ⊢
        cases hbq
        rw [if_pos rfl]
    · rw [if_neg hs]
  · intro hbq
    simp only [pt_query_cond_branch] at hbq ⊢
    by_cases hs : d.synced = true
    · rw [if_pos hs] at hbq ⊢
      cases hr : scanCond (ptFuel d) d with
      | ok p => obtain ⟨a, d'⟩ := p; rw [hr] at hbq; simp at hbq
      | error p =>
        obtain ⟨e, d'⟩ := p
        rw [hr] at hbq
        dsimp only at hbq ⊢
        cases hbq
        rw [if_pos rfl]
    · rw [if_neg hs]
  · intro hbq
    simp only [pt_query_event] at hbq ⊢
    by_cases hs : d.synced = true
    · rw [if_pos hs] at hbq ⊢
      cases hr : scanEvent (ptFuel d) d with
      | ok p => obtain ⟨a, d'⟩ := p; rw [hr] at hbq; simp at hbq
      | error p =>
        obtain ⟨e, d'⟩ := p
        rw [hr] at hbq
        dsimp only at hbq ⊢
        cases hbq
        rw [if_pos rfl]
    · rw [if_neg hs]

/-- C2 witness: an unconditional-branch query on a stream whose next
relevant packet is a conditional-branch packet fails with BadQuery and the
decoder state is unchanged. -/
theorem pt_badquery_frame_witness :
    (pt_query_uncond_branch exC2).1 = .error .badQuery ∧
    (pt_query_uncond_branch exC2).2 = exC2 :=
  ⟨by rfl, (pt_badquery_frame exC2).2.1 (by rfl)⟩

/-- C5: the decoder state machine is deterministic — resetting any decoder
and re-synchronizing at an offset yields the very state any other decoder
on the same configuration reaches when synchronized there, so replaying
the same query sequence reproduces identical branch and event results. -/
theorem pt_reset_replay_deterministic (d e : pt_decoder) (off : Nat) (qs : List Query)
    (h : d.config = e.config) :
    runQueries (ptSync (pt_reset d) off) qs = runQueries (ptSync e off) qs := by
  have hsync : ptSync (pt_reset d) off = ptSync e off := by
    simp [ptSync, pt_reset, h]
  rw [hsync]

/-- C5 witness: a fresh decoder and a decoder carrying stale derived state
on the same configuration replay identically after reset plus
re-synchronization at offset 0. -/
theorem pt_reset_replay_deterministic_witness :
    exC5a.config = exC5b.config ∧
    runQueries (ptSync (pt_reset exC5a) 0) [.qstart, .quncond, .qtime] =
      runQueries (ptSync exC5b 0) [.qstart, .quncond, .qtime] :=
  ⟨rfl, pt_reset_replay_deterministic exC5a exC5b 0 [.qstart, .quncond, .qtime] rfl⟩

/-- C8: the time and core:bus-ratio reads are pure reads of Time Tracker
state: they succeed for every non-null decoder in every state — never
NoSync — returning zero defaults before any timing packet has been seen,
and fail with Invalid exactly on a null decoder. -/
theorem pt_time_cbr_pure_reads :
    pt_query_time none = .error .invalid ∧
     pt_query_core_bus_ratio none = .error .invalid ∧
    (∀ d : pt_decoder, pt_query_time (some d) = .ok d.time.tsc ∧
       pt_query_core_bus_ratio (some d) = .ok d.time.cbr) ∧
    (∀ (cfg : pt_config) (off : Nat),
      (ptSync (pt_decoder_init cfg) off).time.tsc = 0 ∧
      (ptSync (pt_decoder_init cfg) off).time.cbr = 0) :=
  ⟨rfl, rfl, fun _ => ⟨rfl, rfl⟩, fun _ _ => ⟨rfl, rfl⟩⟩

/-- C10: the position and sync-point getters succeed for every non-null
decoder regardless of its synchronization state — they never return
NoSync — and fail with Invalid exactly on a null decoder. -/
theorem pt_get_offsets_total :
    pt_get_decoder_pos none = .error .invalid ∧
    pt_get_decoder_sync none = .error .invalid ∧
    ∀ d : pt_decoder, pt_get_decoder_pos (some d) = .ok d.pos ∧
      pt_get_decoder_sync (some d) = .ok d.sync :=
  ⟨rfl, rfl, fun _ => ⟨rfl, rfl⟩⟩

/-- C6: each of the four advancing query operations — start,
unconditional-branch, conditional-branch and event — fails with the Eos
error code when the end of the buffer is reached while more packet bytes
are required mid-decode (with nothing cached that could be served
without reading). -/
theorem pt_eos_mid_decode (d : pt_decoder)
    (hs : d.synced = true) (ht : d.tnt = []) (he : d.evq = [])
    (hdec : decodePacket d.config.buf d.pos = .error .eos) :
    (pt_query_start d).1 = .error .eos ∧
    (pt_query_uncond_branch d).1 = .error .eos ∧
    (pt_query_cond_branch d).1 = .error .eos ∧
    (pt_query_event d).1 = .error .eos := by
  have hstep : scanStep d = .error .eos := by
    unfold scanStep; rw [hdec]
  have hfuel : ptFuel d = d.config.buf.length + 3 + 1 := rfl
  have h1 : scanStart (ptFuel d) d = .error (.eos, d) := by
    rw [hfuel]; simp only [scanStart]; rw [hstep]
  have h2 : scanUncond (ptFuel d) d = .error (.eos, d) := by
    rw [hfuel]; simp only [scanUncond]; rw [hstep]
  have h3 : scanCond (ptFuel d) d = .error (.eos, d) := by
    rw [hfuel]; simp only [scanCond, ht]; rw [hstep]
  have h4 : scanEvent (ptFuel d) d = .error (.eos, d) := by
    rw [hfuel]; simp only [scanEvent, he]; rw [hstep]
  refine ⟨?_, ?_, ?_, ?_⟩
  · simp only [pt_query_start]; rw [if_pos hs, h1]
  · simp only [pt_query_uncond_branch]; rw [if_pos hs, h2]
  · simp only [pt_query_cond_branch]; rw [if_pos hs, h3]
  · simp only [pt_query_event]; rw [if_pos hs, h4]

/-- C6 witness: a TNT packet truncated before its payload byte makes every
advancing query fail with Eos; shown for the unconditional-branch query. -/
theorem pt_eos_mid_decode_witness :
    (exC6.synced = true ∧ exC6.tnt = [] ∧ exC6.evq = [] ∧
      decodePacket exC6.config.buf exC6.pos = .error .eos) ∧
    (pt_query_uncond_branch exC6).1 = .error .eos :=
  ⟨⟨rfl, rfl, rfl, rfl⟩, (pt_eos_mid_decode exC6 rfl rfl rfl rfl).2.1⟩

/-- C7: a suppressed-address payload reports address 0 to the caller with
the suppression status flag set and leaves the Last-IP tracker's stored
reference address unchanged; only payloads that carry address bits (a full
or a low-order-update payload) clear the suppression and update the
reconstruction. -/
theorem pt_suppressed_ip_frame (l : pt_last_ip) (v : Nat) (d : pt_decoder)
    (hs : d.synced = true)
    (h0 : d.config.buf[d.pos]? = some 0x20)
    (h1 : d.config.buf[d.pos + 1]? = some 0) :
    ((ptLastIpUpdate l .suppressed).ip = l.ip ∧
     (ptLastIpUpdate l .suppressed).suppressed = true ∧
     lastIpQuery (ptLastIpUpdate l .suppressed) = 0 ∧
     (ptLastIpUpdate l (.full v)).ip = v ∧
     (ptLastIpUpdate l (.full v)).suppressed = false ∧
     (ptLastIpUpdate l (.update16 v)).suppressed = false) ∧
    ((pt_query_uncond_branch d).1 = .ok (ptStatus (pt_query_uncond_branch d).2, 0) ∧
     (ptStatus (pt_query_uncond_branch d).2).testBit 0 = true ∧
     (pt_query_uncond_branch d).2.ip.ip = d.ip.ip ∧
     (pt_query_uncond_branch d).2.ip.suppressed = true) := by
  have hb0 : readByte d.config.buf d.pos = .ok 0x20 := by
    unfold readByte; rw [h0]
  have hb1 : readByte d.config.buf (d.pos + 1) = .ok 0 := by
    unfold readByte; rw [h1]
  have hip : decodeIp d.config.buf (d.pos + 1) = .ok (.suppressed, d.pos + 2) := by
    unfold decodeIp
    rw [hb1]
    rfl
  have hdec : decodePacket d.config.buf d.pos = .ok (.tip .suppressed, d.pos + 2) := by
    unfold decodePacket
    rw [hb0]
    dsimp only
    rw [if_neg (by norm_num), if_neg (by norm_num), if_neg (by norm_num), if_pos rfl, hip]
  have hstep : scanStep d = .ok (.found (.branch .suppressed) (d.pos + 2)) := by
    unfold scanStep; rw [hdec]
  have hscan : scanUncond (ptFuel d) d =
      .ok (0, consumeTip d .suppressed (d.pos + 2)) := by
    rw [show ptFuel d = d.config.buf.length + 3 + 1 from rfl]
    simp only [scanUncond]
    rw [hstep]
    rfl
  have hq : pt_query_uncond_branch d =
      (.ok (ptStatus (consumeTip d .suppressed (d.pos + 2)), 0),
       consumeTip d .suppressed (d.pos + 2)) := by
    simp only [pt_query_uncond_branch]
    rw [if_pos hs, hscan]
  refine ⟨⟨rfl, rfl, rfl, rfl, rfl, rfl⟩, ?_, ?_, ?_, ?_⟩
  · rw [hq]
  · rw [hq]
    have hsup : (consumeTip d .suppressed (d.pos + 2)).ip.suppressed = true := rfl
    unfold ptStatus
    rw [hsup, if_pos rfl]
    by_cases hev : (consumeTip d .suppressed (d.pos + 2)).evq.isEmpty = true
    · rw [if_pos hev]; decide
    · rw [if_neg hev]; decide
  · rw [hq]; rfl
  · rw [hq]; rfl

/-- C7 witness: the suppressed-payload frame property evaluated on a
concrete TIP packet with a suppressed payload. -/
theorem pt_suppressed_ip_frame_witness :
    (exC7.synced = true ∧ exC7.config.buf[exC7.pos]? = some 0x20 ∧
      exC7.config.buf[exC7.pos + 1]? = some 0) ∧
    ((pt_query_uncond_branch exC7).2.ip.ip = exC7.ip.ip ∧
     (pt_query_uncond_branch exC7).2.ip.suppressed = true) :=
  ⟨⟨rfl, rfl, rfl⟩,
   (pt_suppressed_ip_frame exC7.ip 0 exC7 rfl rfl rfl).2.2.2.1,
   (pt_suppressed_ip_frame exC7.ip 0 exC7 rfl rfl rfl).2.2.2.2⟩

/-- The TNT fold only grows its accumulator. -/
theorem tntFoldl_le (l : List Bool) :
    ∀ a : Nat, a ≤ l.foldl (fun a b => 2 * a + (if b then 1 else 0)) a := by
  induction l with
  | nil => intro a; exact le_refl a
  | cons b l ih =>
    intro a
    simp only [List.foldl_cons]
    refine le_trans ?_ (ih (2 * a + (if b then 1 else 0)))
    split <;> omega

/-- A TNT payload always carries its stop-marker bit. -/
theorem tntEncode_pos (l : List Bool) : 1 ≤ tntEncode l :=
  tntFoldl_le l 1

/-- The TNT fold is bounded by the accumulator shifted by the bit count. -/
theorem tntFoldl_lt (l : List Bool) :
    ∀ a : Nat, l.foldl (fun a b => 2 * a + (if b then 1 else 0)) a < (a + 1) * 2 ^ l.length := by
  induction l with
  | nil => intro a; simp
  | cons b l ih =>
    intro a
    simp only [List.foldl_cons, List.length_cons]
    refine lt_of_lt_of_le (ih (2 * a + (if b then 1 else 0))) ?_
    have h2 : (2 * a + (if b then 1 else 0)) + 1 ≤ 2 * (a + 1) := by split <;> omega
    calc (2 * a + (if b then 1 else 0) + 1) * 2 ^ l.length
        ≤ (2 * (a + 1)) * 2 ^ l.length := Nat.mul_le_mul_right _ h2
      _ = (a + 1) * 2 ^ (l.length + 1) := by ring

/-- At most seven decision bits fit one payload byte. -/
theorem tntEncode_le (l : List Bool) (h : l.length ≤ 7) : tntEncode l ≤ 255 := by
  have h1 : tntEncode l < 2 * 2 ^ l.length := by
    have := tntFoldl_lt l 1
    simpa [tntEncode] using this
  have h2 : (2:Nat) ^ l.length ≤ 2 ^ 7 := Nat.pow_le_pow_right (by norm_num) h
  have h3 : 2 * 2 ^ l.length ≤ 2 * 2 ^ 7 := Nat.mul_le_mul_left _ h2
  norm_num at h3
  omega

/-- Appending one decision shifts the payload and adds the new bit. -/
theorem tntEncode_append (l : List Bool) (b : Bool) :
    tntEncode (l ++ [b]) = 2 * tntEncode l + (if b then 1 else 0) := by
  unfold tntEncode
  rw [List.foldl_append]
  rfl

/-- Decoding inverts encoding, given enough fuel. -/
theorem tntBitsF_encode :
    ∀ (l : List Bool) (f : Nat), tntEncode l ≤ f → tntBitsF f (tntEncode l) = l := by
  intro l
  induction l using List.reverseRecOn with
  | nil =>
    intro f _
    cases f with
    | zero => rfl
    | succ f => rfl
  | append_singleton l b ih =>
    intro f hf
    rw [tntEncode_append] at hf ⊢
    have he1 : 1 ≤ tntEncode l := tntEncode_pos l
    have hc : (if b then (1:Nat) else 0) ≤ 1 := by split <;> omega
    cases f with
    | zero => omega
    | succ f =>
      have hnle : ¬ (2 * tntEncode l + (if b then 1 else 0) ≤ 1) := by omega
      simp only [tntBitsF, if_neg hnle]
      have hdiv : (2 * tntEncode l + (if b then 1 else 0)) / 2 = tntEncode l := by
        split <;> omega
      have hmod : decide ((2 * tntEncode l + (if b then 1 else 0)) % 2 = 1) = b := by
        cases b with
        | false =>
          have hz : (2 * tntEncode l) % 2 = 0 := by omega
          simp [hz]
        | true =>
          have ho : (2 * tntEncode l + 1) % 2 = 1 := by omega
          simp [ho]
      rw [hdiv, hmod, ih f (by omega)]

/-- Decoding a TNT payload byte recovers exactly the encoded bits. -/
theorem tntBits_tntEncode (l : List Bool) : tntBits (tntEncode l) = l :=
  tntBitsF_encode l (tntEncode l) le_rfl

/-- A conditional-branch scan with a cached decision pops it at once. -/
theorem scanCond_pop (f : Nat) (d : pt_decoder) (b : Bool) (rest : List Bool)
    (ht : d.tnt = b :: rest) :
    scanCond (f + 1) d = .ok ((if b then 1 else 0), { d with tnt := rest }) := by
  simp only [scanCond, ht]

/-- A conditional-branch scan facing a TNT packet refills the cache and
continues. -/
theorem scanCond_refill (f : Nat) (d : pt_decoder) (bits : List Bool) (i : Nat)
    (ht : d.tnt = []) (hstep : scanStep d = .ok (.found (.tntData bits) i)) :
    scanCond (f + 1) d = scanCond f { d with tnt := bits, pos := i } := by
  simp only [scanCond, ht, hstep]

/-- A conditional-branch query with a nonempty cache pops its front bit
and changes nothing else. -/
theorem pt_query_cond_pop (d : pt_decoder) (b : Bool) (rest : List Bool)
    (hs : d.synced = true) (ht : d.tnt = b :: rest) :
    pt_query_cond_branch d =
      (.ok (ptStatus d, if b then 1 else 0), { d with tnt := rest }) := by
  simp only [pt_query_cond_branch]
  rw [if_pos hs, show ptFuel d = d.config.buf.length + 3 + 1 from rfl,
      scanCond_pop _ d b rest ht]
  rfl

/-- Consecutive conditional-branch queries drain the TNT cache in FIFO
order, one bit per call. -/
theorem runQueries_cond_pops :
    ∀ (rest : List Bool) (d : pt_decoder), d.synced = true → d.tnt = rest →
      runQueries d (List.replicate rest.length .qcond) =
        (rest.map (fun b => .ok (ptStatus d, .bit (if b then 1 else 0))),
         { d with tnt := [] }) := by
  intro rest
  induction rest with
  | nil =>
    intro d hs ht
    obtain ⟨cfg, pos, sy, sn, ip, tnt, fl, tm, evq, pend⟩ := d
    dsimp only at ht
    subst ht
    rfl
  | cons b rest ih =>
    intro d hs ht
    have hq := pt_query_cond_pop d b rest hs ht
    have hrec := ih { d with tnt := rest } hs rfl
    simp only [List.length_cons, List.replicate_succ, runQueries, runQuery]
    rw [hq]
    dsimp only
    rw [hrec]
    rfl

/-- C3: a TNT packet whose payload encodes the decision bits b0, ..., bn,
decoded into an empty TNT cache, makes the following n+1 consecutive
conditional-branch queries succeed and return b0, ..., bn in exactly that
FIFO order; each call pops one bit, the packet is consumed once, and the
cache ends empty. -/
theorem pt_tnt_fifo_order (d : pt_decoder) (l : List Bool)
    (hs : d.synced = true) (ht : d.tnt = [])
    (h0 : d.config.buf[d.pos]? = some 0x10)
    (h1 : d.config.buf[d.pos + 1]? = some (tntEncode l))
    (hne : l ≠ []) (hlen : l.length ≤ 7) :
    runQueries d (List.replicate l.length .qcond) =
      (l.map (fun b => .ok (ptStatus d, .bit (if b then 1 else 0))),
       { d with pos := d.pos + 2, tnt := [] }) := by
  have hb0 : readByte d.config.buf d.pos = .ok 0x10 := by
    unfold readByte; rw [h0]
  have hb1 : readByte d.config.buf (d.pos + 1) = .ok (tntEncode l) := by
    unfold readByte; rw [h1]
  have he1 : 1 ≤ tntEncode l := tntEncode_pos l
  have he255 : tntEncode l ≤ 255 := tntEncode_le l hlen
  have hdec : decodePacket d.config.buf d.pos = .ok (.tnt l, d.pos + 2) := by
    unfold decodePacket
    rw [hb0]
    dsimp only
    rw [if_neg (by norm_num), if_neg (by norm_num), if_pos rfl, hb1]
    dsimp only
    rw [if_neg (by omega), tntBits_tntEncode]
  have hstep : scanStep d = .ok (.found (.tntData l) (d.pos + 2)) := by
    unfold scanStep; rw [hdec]
  cases l with
  | nil => exact absurd rfl hne
  | cons b rest =>
    have hscan : scanCond (ptFuel d) d =
        .ok ((if b then 1 else 0), { d with tnt := rest, pos := d.pos + 2 }) := by
      rw [show ptFuel d = d.config.buf.length + 3 + 1 from rfl]
      rw [scanCond_refill _ d (b :: rest) (d.pos + 2) ht hstep]
      rw [show d.config.buf.length + 3 = d.config.buf.length + 2 + 1 from rfl]
      rw [scanCond_pop _ _ b rest rfl]
    have hq : pt_query_cond_branch d =
        (.ok (ptStatus d, if b then 1 else 0),
         { d with tnt := rest, pos := d.pos + 2 }) := by
      simp only [pt_query_cond_branch]
      rw [if_pos hs, hscan]
      rfl
    have hrec := runQueries_cond_pops rest { d with tnt := rest, pos := d.pos + 2 } hs rfl
    simp only [List.length_cons, List.replicate_succ, runQueries, runQuery]
    rw [hq]
    dsimp only
    rw [hrec]
    rfl

/-- C3 witness: the FIFO order evaluated on a concrete TNT packet encoding
taken, not-taken, taken. -/
theorem pt_tnt_fifo_order_witness :
    (exC3.synced = true ∧ exC3.tnt = [] ∧
      exC3.config.buf[exC3.pos]? = some 0x10 ∧
      exC3.config.buf[exC3.pos + 1]? = some (tntEncode [true, false, true])) ∧
    runQueries exC3 (List.replicate ([true, false, true] : List Bool).length .qcond) =
      (([true, false, true] : List Bool).map
        (fun b => .ok (ptStatus exC3, .bit (if b then 1 else 0))),
       { exC3 with pos := exC3.pos + 2, tnt := [] }) :=
  ⟨⟨rfl, rfl, rfl, by rfl⟩,
   pt_tnt_fifo_order exC3 [true, false, true] rfl rfl rfl (by rfl) (by decide) (by decide)⟩

/-- A completed event is resolved. -/
theorem eventResolved_complete (a : Nat) (e : pt_event) :
    eventResolved (eventComplete a e) = true := by
  cases e <;> rfl

/-- A branch-bound event is resolved. -/
theorem eventResolved_of_binds {e : pt_event} (h : eventBindsBranch e = true) :
    eventResolved e = true := by
  cases e with
  | paging v => rfl
  | overflow => rfl
  | asyncBranch o =>
    cases o with
    | none => simp [eventBindsBranch] at h
    | some a => rfl

/-- A skipped packet does not change the deliverable event queue. -/
theorem scanStep_skipped_evq {d d' : pt_decoder} (h : scanStep d = .ok (.skipped d')) :
    d'.evq = d.evq := by
  unfold scanStep at h
  cases hp : decodePacket d.config.buf d.pos with
  | error e => rw [hp] at h; cases h
  | ok r =>
    obtain ⟨p, i⟩ := r
    rw [hp] at h
    dsimp only at h
    cases p with
    | pad => cases h; rfl
    | psb => cases h; rfl
    | psbend => cases h; rfl
    | tnt bits => cases h
    | tip pl => cases h
    | fup pl =>
      dsimp only at h
      by_cases hc : d.pending.any eventNeedsIp
      · rw [if_pos hc] at h; cases h
      · rw [if_neg hc] at h; cases h; rfl
    | ovf => cases h
    | asyncOpen => cases h; rfl
    | paging v => cases h; rfl
    | tsc v => cases h; rfl
    | cbr v => cases h; rfl

/-- Consuming a branch packet appends only resolved events to the queue. -/
theorem evq_all_consumeTip {d : pt_decoder} (pl : IpPayload) (i : Nat)
    (h : d.evq.all eventResolved = true) :
    (consumeTip d pl i).evq.all eventResolved = true := by
  have hf : (d.pending.filter eventBindsBranch).all eventResolved = true := by
    rw [List.all_eq_true]
    intro e he
    exact eventResolved_of_binds (List.of_mem_filter he)
  show (d.evq ++ d.pending.filter eventBindsBranch).all eventResolved = true
  rw [List.all_append, h, hf]
  rfl

/-- Releasing branch-bound events appends only resolved events. -/
theorem evq_all_release {d : pt_decoder} (h : d.evq.all eventResolved = true) :
    (releaseBranchEvents d).evq.all eventResolved = true := by
  have hf : (d.pending.filter eventBindsBranch).all eventResolved = true := by
    rw [List.all_eq_true]
    intro e he
    exact eventResolved_of_binds (List.of_mem_filter he)
  show (d.evq ++ d.pending.filter eventBindsBranch).all eventResolved = true
  rw [List.all_append, h, hf]
  rfl

/-- Completing pending events through a FUP appends only resolved
events. -/
theorem evq_all_consumeFup {d : pt_decoder} (pl : IpPayload) (i : Nat)
    (h : d.evq.all eventResolved = true) :
    (consumeFup d pl i).evq.all eventResolved = true := by
  have hf : ((d.pending.filter eventNeedsIp).map
      (eventComplete (lastIpQuery (ptLastIpUpdate d.ip pl)))).all eventResolved = true := by
    rw [List.all_eq_true]
    intro e he
    obtain ⟨x, hx, hxe⟩ := List.mem_map.mp he
    rw [← hxe]
    exact eventResolved_complete _ x
  show (d.evq ++ (d.pending.filter eventNeedsIp).map
      (eventComplete (lastIpQuery (ptLastIpUpdate d.ip pl)))).all eventResolved = true
  rw [List.all_append, h, hf]
  rfl

/-- The start scan keeps every queued event resolved. -/
theorem scanStart_evq :
    ∀ (f : Nat) (d : pt_decoder), d.evq.all eventResolved = true →
      scanAllResolved (scanStart f d) := by
  intro f
  induction f with
  | zero => intro d h; exact h
  | succ f ih =>
    intro d h
    simp only [scanStart]
    cases hs : scanStep d with
    | error e => exact h
    | ok r =>
      cases r with
      | skipped d' =>
        have hevq := scanStep_skipped_evq hs
        exact ih d' (by rw [hevq]; exact h)
      | found fnd i => exact h

/-- The unconditional-branch scan keeps every queued event resolved. -/
theorem scanUncond_evq :
    ∀ (f : Nat) (d : pt_decoder), d.evq.all eventResolved = true →
      scanAllResolved (scanUncond f d) := by
  intro f
  induction f with
  | zero => intro d h; exact h
  | succ f ih =>
    intro d h
    simp only [scanUncond]
    cases hs : scanStep d with
    | error e => exact h
    | ok r =>
      cases r with
      | skipped d' =>
        have hevq := scanStep_skipped_evq hs
        exact ih d' (by rw [hevq]; exact h)
      | found fnd i =>
        cases fnd with
        | branch pl => exact evq_all_consumeTip pl i h
        | tntData bits => exact h
        | fupEvent pl => exact h
        | ovfEvent => exact h

/-- The conditional-branch scan keeps every queued event resolved. -/
theorem scanCond_evq :
    ∀ (f : Nat) (d : pt_decoder), d.evq.all eventResolved = true →
      scanAllResolved (scanCond f d) := by
  intro f
  induction f with
  | zero => intro d h; exact h
  | succ f ih =>
    intro d h
    simp only [scanCond]
    cases ht : d.tnt with
    | cons b rest => exact h
    | nil =>
      cases hs : scanStep d with
      | error e => exact h
      | ok r =>
        cases r with
        | skipped d' =>
          have hevq := scanStep_skipped_evq hs
          exact ih d' (by rw [hevq]; exact h)
        | found fnd i =>
          cases fnd with
          | tntData bits =>
            exact ih _ (show d.evq.all eventResolved = true from h)
          | branch pl => exact h
          | fupEvent pl => exact h
          | ovfEvent => exact h

/-- The event scan keeps every queued event resolved. -/
theorem scanEvent_evq :
    ∀ (f : Nat) (d : pt_decoder), d.evq.all eventResolved = true →
      scanAllResolved (scanEvent f d) := by
  intro f
  induction f with
  | zero => intro d h; exact h
  | succ f ih =>
    intro d h
    simp only [scanEvent]
    cases he : d.evq with
    | cons e rest =>
      rw [he] at h
      show rest.all eventResolved = true
      rw [List.all_eq_true] at h ⊢
      intro x hx
      exact h x (List.mem_cons_of_mem e hx)
    | nil =>
      cases hs : scanStep d with
      | error e => exact h
      | ok r =>
        cases r with
        | skipped d' =>
          have hevq := scanStep_skipped_evq hs
          exact ih d' (by rw [hevq]; exact h)
        | found fnd i =>
          cases fnd with
          | fupEvent pl => exact ih _ (evq_all_consumeFup pl i h)
          | ovfEvent => exact ih _ (by rfl)
          | branch pl =>
            by_cases hb : d.pending.any eventBindsBranch
            · rw [if_pos hb]
              exact ih _ (evq_all_release h)
            · rw [if_neg hb]
              exact h
          | tntData bits => exact h

/-- One query call keeps every queued event resolved. -/
theorem runQuery_evq (q : Query) (d : pt_decoder)
    (h : d.evq.all eventResolved = true) :
    (runQuery d q).2.evq.all eventResolved = true := by
  cases q with
  | qstart =>
    have hscan := scanStart_evq (ptFuel d) d h
    simp only [runQuery, pt_query_start]
    cases hsy : d.synced with
    | false =>
      rw [if_neg (show ¬ false = true by simp)]
      exact h
    | true =>
      rw [if_pos rfl]
      cases hr : scanStart (ptFuel d) d with
      | ok p =>
        obtain ⟨a, d'⟩ := p
        rw [hr] at hscan
        exact hscan
      | error p =>
        obtain ⟨e, d'⟩ := p
        rw [hr] at hscan
        dsimp only
        by_cases he : e = .badQuery
        · rw [if_pos he]; exact h
        · rw [if_neg he]; exact hscan
  | quncond =>
    have hscan := scanUncond_evq (ptFuel d) d h
    simp only [runQuery, pt_query_uncond_branch]
    cases hsy : d.synced with
    | false =>
      rw [if_neg (show ¬ false = true by simp)]
      exact h
    | true =>
      rw [if_pos rfl]
      cases hr : scanUncond (ptFuel d) d with
      | ok p =>
        obtain ⟨a, d'⟩ := p
        rw [hr] at hscan
        exact hscan
      | error p =>
        obtain ⟨e, d'⟩ := p
        rw [hr] at hscan
        dsimp only
        by_cases he : e = .badQuery
        · rw [if_pos he]; exact h
        · rw [if_neg he]; exact hscan
  | qcond =>
    have hscan := scanCond_evq (ptFuel d) d h
    simp only [runQuery, pt_query_cond_branch]
    cases hsy : d.synced with
    | false =>
      rw [if_neg (show ¬ false = true by simp)]
      exact h
    | true =>
      rw [if_pos rfl]
      cases hr : scanCond (ptFuel d) d with
      | ok p =>
        obtain ⟨a, d'⟩ := p
        rw [hr] at hscan
        exact hscan
      | error p =>
        obtain ⟨e, d'⟩ := p
        rw [hr] at hscan
        dsimp only
        by_cases he : e = .badQuery
        · rw [if_pos he]; exact h
        · rw [if_neg he]; exact hscan
  | qevent =>
    have hscan := scanEvent_evq (ptFuel d) d h
    simp only [runQuery, pt_query_event]
    cases hsy : d.synced with
    | false =>
      rw [if_neg (show ¬ false = true by simp)]
      exact h
    | true =>
      rw [if_pos rfl]
      cases hr : scanEvent (ptFuel d) d with
      | ok p =>
        obtain ⟨a, d'⟩ := p
        rw [hr] at hscan
        exact hscan
      | error p =>
        obtain ⟨e, d'⟩ := p
        rw [hr] at hscan
        dsimp only
        by_cases he : e = .badQuery
        · rw [if_pos he]; exact h
        · rw [if_neg he]; exact hscan
  | qtime => exact h
  | qcbr => exact h

/-- Replaying any query sequence keeps every queued event resolved. -/
theorem runQueries_evq :
    ∀ (qs : List Query) (d : pt_decoder), d.evq.all eventResolved = true →
      (runQueries d qs).2.evq.all eventResolved = true := by
  intro qs
  induction qs with
  | nil => intro d h; exact h
  | cons q qs ih =>
    intro d h
    have hone := runQuery_evq q d h
    have hrec := ih (runQuery d q).2 hone
    simp only [runQueries]
    rcases hq : runQuery d q with ⟨r, d1⟩
    rw [hq] at hrec
    rcases hr2 : runQueries d1 qs with ⟨rs, d2⟩
    rw [hr2] at hrec
    exact hrec

/-- C4: an event requiring a bound address is never in the deliverable
queue — and hence never returned by the event query — before its address
has been resolved (replaying any query sequence preserves the all-resolved
queue invariant); and for the concrete two-event trace exC4, where event
E1 (paging, no address needed) opens before event E2 (asynchronous
branch, address needed) but E2's completing FUP arrives before E1's
delivery point at the next branch, two event queries deliver E2 then E1:
completion order, not opening order. -/
theorem pt_event_order (d : pt_decoder) (qs : List Query)
    (h : d.evq.all eventResolved = true) :
    (runQueries d qs).2.evq.all eventResolved = true ∧
    (runQueries exC4 [.qevent, .qevent]).1 =
      [.ok (0, .ev (.asyncBranch (some 7))), .ok (0, .ev (.paging 5))] :=
  ⟨runQueries_evq qs d h, by rfl⟩

/-- C4 witness: the all-resolved queue invariant evaluated on the concrete
two-event trace. -/
theorem pt_event_order_witness :
    exC4.evq.all eventResolved = true ∧
    (runQueries exC4 [.qevent, .qevent]).2.evq.all eventResolved = true :=
  ⟨by rfl, (pt_event_order exC4 [.qevent, .qevent] (by rfl)).1⟩

/-- A satisfied any-predicate gives a nonempty filter. -/
theorem length_filter_pos_of_any {l : List pt_event} {p : pt_event → Bool}
    (h : l.any p = true) : 0 < (l.filter p).length := by
  obtain ⟨x, hx, hpx⟩ := List.any_eq_true.mp h
  have hmem : x ∈ l.filter p := List.mem_filter.mpr ⟨hx, hpx⟩
  exact List.length_pos.mpr (List.ne_nil_of_mem hmem)

/-- A falsified any-predicate gives an empty filter. -/
theorem filter_eq_nil_of_any_false {l : List pt_event} {p : pt_event → Bool}
    (h : l.any p = false) : l.filter p = [] := by
  rw [List.filter_eq_nil_iff]
  intro a ha
  have := List.any_eq_false.mp h
  exact this a ha

/-- C9: pt_will_event is a pure lookahead: it fails with Invalid exactly
on a null decoder; on every non-null decoder it returns 0 or 1 without
touching the decoder state, and it returns 1 precisely when fully decoding
the packet currently selected at the cursor produces a deliverable event
(the deliverable queue strictly grows). -/
theorem pt_will_event_lookahead :
    pt_will_event none = .error .invalid ∧
    ∀ d : pt_decoder,
      (pt_will_event (some d) = .ok 0 ∨ pt_will_event (some d) = .ok 1) ∧
      (pt_will_event (some d) = .ok 1 ↔
        ∃ d', consumeNext d = .ok d' ∧ d.evq.length < d'.evq.length) := by
  refine ⟨rfl, fun d => ?_⟩
  cases hdec : decodePacket d.config.buf d.pos with
  | error e =>
    have hw : pt_will_event (some d) = .ok 0 := by simp [pt_will_event, hdec]
    have hc : consumeNext d = .error e := by
      unfold consumeNext scanStep
      rw [hdec]
    refine ⟨Or.inl hw, ?_⟩
    rw [hw, hc]
    constructor
    · intro hx; exact absurd hx (by simp)
    · rintro ⟨d', hd', _⟩; cases hd'
  | ok r =>
    obtain ⟨p, i⟩ := r
    cases p with
    | pad =>
      have hsp : scanStep d = .ok (.skipped { d with pos := i }) := by
        unfold scanStep; rw [hdec]
      have hw : pt_will_event (some d) = .ok 0 := by simp [pt_will_event, hdec]
      have hc : consumeNext d = .ok { d with pos := i } := by
        unfold consumeNext; rw [hsp]
      refine ⟨Or.inl hw, ?_⟩
      rw [hw, hc]
      constructor
      · intro hx; exact absurd hx (by simp)
      · rintro ⟨d', hd', hlt⟩
        cases hd'
        exact absurd hlt (lt_irrefl _)
    | psbend =>
      have hsp : scanStep d = .ok (.skipped { d with pos := i }) := by
        unfold scanStep; rw [hdec]
      have hw : pt_will_event (some d) = .ok 0 := by simp [pt_will_event, hdec]
      have hc : consumeNext d = .ok { d with pos := i } := by
        unfold consumeNext; rw [hsp]
      refine ⟨Or.inl hw, ?_⟩
      rw [hw, hc]
      constructor
      · intro hx; exact absurd hx (by simp)
      · rintro ⟨d', hd', hlt⟩
        cases hd'
        exact absurd hlt (lt_irrefl _)
    | psb =>
      have hsp : scanStep d = .ok (.skipped { d with pos := i, sync := d.pos, tnt := [], ip := { ip := 0, suppressed := true } }) := by
        unfold scanStep; rw [hdec]
      have hw : pt_will_event (some d) = .ok 0 := by simp [pt_will_event, hdec]
      have hc : consumeNext d = .ok { d with pos := i, sync := d.pos, tnt := [], ip := { ip := 0, suppressed := true } } := by
        unfold consumeNext; rw [hsp]
      refine ⟨Or.inl hw, ?_⟩
      rw [hw, hc]
      constructor
      · intro hx; exact absurd hx (by simp)
      · rintro ⟨d', hd', hlt⟩
        cases hd'
        exact absurd hlt (lt_irrefl _)
    | tsc v =>
      have hsp : scanStep d = .ok (.skipped { d with pos := i, time := { d.time with tsc := v } }) := by
        unfold scanStep; rw [hdec]
      have hw : pt_will_event (some d) = .ok 0 := by simp [pt_will_event, hdec]
      have hc : consumeNext d = .ok { d with pos := i, time := { d.time with tsc := v } } := by
        unfold consumeNext; rw [hsp]
      refine ⟨Or.inl hw, ?_⟩
      rw [hw, hc]
      constructor
      · intro hx; exact absurd hx (by simp)
      · rintro ⟨d', hd', hlt⟩
        cases hd'
        exact absurd hlt (lt_irrefl _)
    | cbr v =>
      have hsp : scanStep d = .ok (.skipped { d with pos := i, time := { d.time with cbr := v } }) := by
        unfold scanStep; rw [hdec]
      have hw : pt_will_event (some d) = .ok 0 := by simp [pt_will_event, hdec]
      have hc : consumeNext d = .ok { d with pos := i, time := { d.time with cbr := v } } := by
        unfold consumeNext; rw [hsp]
      refine ⟨Or.inl hw, ?_⟩
      rw [hw, hc]
      constructor
      · intro hx; exact absurd hx (by simp)
      · rintro ⟨d', hd', hlt⟩
        cases hd'
        exact absurd hlt (lt_irrefl _)
    | asyncOpen =>
      have hsp : scanStep d = .ok (.skipped { d with pos := i, pending := d.pending ++ [.asyncBranch none] }) := by
        unfold scanStep; rw [hdec]
      have hw : pt_will_event (some d) = .ok 0 := by simp [pt_will_event, hdec]
      have hc : consumeNext d = .ok { d with pos := i, pending := d.pending ++ [.asyncBranch none] } := by
        unfold consumeNext; rw [hsp]
      refine ⟨Or.inl hw, ?_⟩
      rw [hw, hc]
      constructor
      · intro hx; exact absurd hx (by simp)
      · rintro ⟨d', hd', hlt⟩
        cases hd'
        exact absurd hlt (lt_irrefl _)
    | paging v =>
      have hsp : scanStep d = .ok (.skipped { d with pos := i, pending := d.pending ++ [.paging v] }) := by
        unfold scanStep; rw [hdec]
      have hw : pt_will_event (some d) = .ok 0 := by simp [pt_will_event, hdec]
      have hc : consumeNext d = .ok { d with pos := i, pending := d.pending ++ [.paging v] } := by
        unfold consumeNext; rw [hsp]
      refine ⟨Or.inl hw, ?_⟩
      rw [hw, hc]
      constructor
      · intro hx; exact absurd hx (by simp)
      · rintro ⟨d', hd', hlt⟩
        cases hd'
        exact absurd hlt (lt_irrefl _)
    | tnt bits =>
      have hsp : scanStep d = .ok (.found (.tntData bits) i) := by
        unfold scanStep; rw [hdec]
      have hw : pt_will_event (some d) = .ok 0 := by simp [pt_will_event, hdec]
      have hc : consumeNext d = .ok { d with tnt := d.tnt ++ bits, pos := i } := by
        unfold consumeNext; rw [hsp]
      refine ⟨Or.inl hw, ?_⟩
      rw [hw, hc]
      constructor
      · intro hx; exact absurd hx (by simp)
      · rintro ⟨d', hd', hlt⟩
        cases hd'
        exact absurd hlt (lt_irrefl _)
    | ovf =>
      have hsp : scanStep d = .ok (.found .ovfEvent i) := by
        unfold scanStep; rw [hdec]
      have hw : pt_will_event (some d) = .ok 1 := by simp [pt_will_event, hdec]
      have hc : consumeNext d = .ok { d with pos := i, evq := d.evq ++ [.overflow] } := by
        unfold consumeNext; rw [hsp]
      refine ⟨Or.inr hw, ?_⟩
      rw [hw, hc]
      constructor
      · intro _
        refine ⟨_, rfl, ?_⟩
        show d.evq.length < (d.evq ++ [pt_event.overflow]).length
        rw [List.length_append]
        simp
      · intro _; rfl
    | tip pl =>
      have hsp : scanStep d = .ok (.found (.branch pl) i) := by
        unfold scanStep; rw [hdec]
      have hc : consumeNext d = .ok (consumeTip d pl i) := by
        unfold consumeNext; rw [hsp]
      by_cases hb : d.pending.any eventBindsBranch = true
      · have hw : pt_will_event (some d) = .ok 1 := by simp [pt_will_event, hdec, hb]
        refine ⟨Or.inr hw, ?_⟩
        rw [hw, hc]
        constructor
        · intro _
          refine ⟨_, rfl, ?_⟩
          show d.evq.length < (d.evq ++ d.pending.filter eventBindsBranch).length
          rw [List.length_append]
          have := length_filter_pos_of_any hb
          omega
        · intro _; rfl
      · have hb' : d.pending.any eventBindsBranch = false := by
          cases hq : d.pending.any eventBindsBranch
          · rfl
          · exact absurd hq hb
        have hw : pt_will_event (some d) = .ok 0 := by simp [pt_will_event, hdec, hb']
        refine ⟨Or.inl hw, ?_⟩
        rw [hw, hc]
        constructor
        · intro hx; exact absurd hx (by simp)
        · rintro ⟨d', hd', hlt⟩
          cases hd'
          have hlen : (consumeTip d pl i).evq.length = d.evq.length := by
            show (d.evq ++ d.pending.filter eventBindsBranch).length = d.evq.length
            rw [filter_eq_nil_of_any_false hb']
            simp
          omega
    | fup pl =>
      by_cases hn : d.pending.any eventNeedsIp = true
      · have hsp : scanStep d = .ok (.found (.fupEvent pl) i) := by
          unfold scanStep; rw [hdec]; dsimp only; rw [if_pos hn]
        have hc : consumeNext d = .ok (consumeFup d pl i) := by
          unfold consumeNext; rw [hsp]
        have hw : pt_will_event (some d) = .ok 1 := by simp [pt_will_event, hdec, hn]
        refine ⟨Or.inr hw, ?_⟩
        rw [hw, hc]
        constructor
        · intro _
          refine ⟨_, rfl, ?_⟩
          show d.evq.length < (d.evq ++ (d.pending.filter eventNeedsIp).map
            (eventComplete (lastIpQuery (ptLastIpUpdate d.ip pl)))).length
          rw [List.length_append, List.length_map]
          have := length_filter_pos_of_any hn
          omega
        · intro _; rfl
      · have hn' : d.pending.any eventNeedsIp = false := by
          cases hq : d.pending.any eventNeedsIp
          · rfl
          · exact absurd hq hn
        have hsp : scanStep d = .ok (.skipped { d with pos := i, ip := ptLastIpUpdate d.ip pl }) := by
          unfold scanStep; rw [hdec]; dsimp only; rw [if_neg hn]
        have hc : consumeNext d = .ok { d with pos := i, ip := ptLastIpUpdate d.ip pl } := by
          unfold consumeNext; rw [hsp]
        have hw : pt_will_event (some d) = .ok 0 := by simp [pt_will_event, hdec, hn']
        refine ⟨Or.inl hw, ?_⟩
        rw [hw, hc]
        constructor
        · intro hx; exact absurd hx (by simp)
        · rintro ⟨d', hd', hlt⟩
          cases hd'
          exact absurd hlt (lt_irrefl _)

/-- C8 witness: the pure time and ratio reads evaluated on a concrete
decoder carrying nonzero time state. -/
theorem pt_time_cbr_pure_reads_witness :
    pt_query_time (some exC5b) = .ok exC5b.time.tsc ∧
     pt_query_core_bus_ratio (some exC5b) = .ok exC5b.time.cbr :=
  pt_time_cbr_pure_reads.2.2.1 exC5b

/-- C9 witness: the lookahead evaluated on the concrete two-event trace. -/
theorem pt_will_event_lookahead_witness :
    pt_will_event (some exC4) = .ok 0 ∨ pt_will_event (some exC4) = .ok 1 :=
  (pt_will_event_lookahead.2 exC4).1

/-- C10 witness: the getters evaluated on a concrete unsynchronized
decoder. -/
theorem pt_get_offsets_total_witness :
    pt_get_decoder_pos (some exC5b) = .ok exC5b.pos ∧
    pt_get_decoder_sync (some exC5b) = .ok exC5b.sync :=
  pt_get_offsets_total.2.2 exC5b
